import Mathlib

/-!
Verification of git-project-archive: a shallow embedding of the script
src/git-project-archive.py.  The script is a sequential pipeline: argument
parsing and project validation, per-project staging and 7z archiving, and an
optional gpg encryption pass.  External interactions (directory tests, path
resolution, git output, subprocess exit statuses) are supplied by an
environment record; the program is modelled as a pure function from that
environment and the command-line arguments to a trace of effects together
with the process exit behaviour.
-/

namespace GitBackup

/-! ## Path and string primitives (posixpath semantics used by the script) -/

/-- First n characters of a string, the Python slice s[:n]. -/
def strTake (n : Nat) (s : String) : String := String.mk (s.data.take n)

/-- Whether a path string begins with the path separator. -/
def startsWithSlash (p : String) : Bool := decide (p.data.head? = some '/')

/-- Whether a path string ends with the path separator. -/
def endsWithSlash (p : String) : Bool := decide (p.data.getLast? = some '/')

/-- posixpath.join for two components, as used by os.path.join in the script:
an absolute second component replaces the first, otherwise a separator is
inserted unless the first component is empty or already ends in one. -/
def pathJoin (a b : String) : String :=
  if startsWithSlash b = true then b
  else if a = "" ∨ endsWithSlash a = true then a ++ b
  else a ++ "/" ++ b

/-- Character test used by basename: not the path separator. -/
def noSlash (c : Char) : Bool := decide (¬ c = '/')

/-- posixpath.basename: the longest suffix of the path containing no
separator (everything after the last slash). -/
def basename (p : String) : String :=
  String.mk ((p.data.reverse.takeWhile noSlash).reverse)

/-- Whether child lies strictly below parent in the path tree: parent
followed by a separator is a prefix of child. -/
def isUnder (child parent : String) : Bool :=
  List.isPrefixOf (parent ++ "/").data child.data

/-! ## Data model -/

/-- A validated project, as built by the argument-parsing loop of the script:
the raw path, its absolute resolution, and its base name. -/
structure ProjectInfo where
  rel : String
  abs : String
  base : String
deriving Repr, DecidableEq

/-- A project enriched by the archiving loop with its staging directory, the
temporary archive path and the final output path. -/
structure StagedProject extends ProjectInfo where
  tmpdir : String
  archive : String
  output : String
deriving Repr, DecidableEq

/-- The external world the script consults: directory tests, absolute path
resolution, the per-run temporary directory, the stripped stdout of the two
git queries, and the exit statuses returned by the spawned processes (the
script waits on clone, 7z and gpg but never inspects these statuses). -/
structure Env where
  isdir : String → Bool
  abspath : String → String
  mkdtemp : String
  gitRevision : String → String
  gitTag : String → String
  cloneExit : String → String → Int
  sevenZipExit : String → Int
  gpgExit : Int

/-- The command line after argparse: positional project paths and the five
options, with argparse defaults for keys and the output directory. -/
structure RawArgs where
  project : List String
  encrypt : Bool
  keys : List String
  keep : Bool
  output_dir : String
  ignored : Bool
deriving Repr, DecidableEq

/-- The namespace returned by parse_arguments once the project paths have
been replaced by resolved project records. -/
structure Arguments where
  project : List ProjectInfo
  encrypt : Bool
  keys : List String
  keep : Bool
  output_dir : String
  ignored : Bool

/-- One observable action of the script: a write to the error stream, a
usage print, a spawned external process (with the exit status the wait
returned, where the script waits), or a filesystem primitive. -/
inductive Effect where
  | stderrMsg (msg : String)
  | usage
  | gitClone (src dst : String) (exit : Int)
  | copytree (src dst : String)
  | gitRevParse (cwd : String)
  | gitDescribe (cwd : String)
  | sevenZip (archive src : String) (exit : Int)
  | rmtree (path : String)
  | move (src dst : String)
  | rmdir (path : String)
  | gpgEncrypt (argv : List String) (files : List String) (exit : Int)
  | removeFile (path : String)
deriving Repr, DecidableEq

/-- Exit code of the modelled process: error code on sys.exit, zero on a run
that falls through main. -/
def exitCode : Except Nat Unit → Nat
  | Except.error c => c
  | Except.ok _ => 0

/-! ## The program -/

/-- The dict built for a validated project path: relative path, absolute
path, and the base name of the absolute path. -/
def resolveProject (env : Env) (p : String) : ProjectInfo :=
  { rel := p, abs := env.abspath p, base := basename (env.abspath p) }

/-- The validation loop of parse_arguments: each path must be a directory;
the first failure writes an error and the usage to stderr and exits 1. -/
def resolveProjects (env : Env) : List String → List Effect × Except Nat (List ProjectInfo)
  | [] => ([], Except.ok [])
  | p :: rest =>
    if env.isdir p = true then
      let r := resolveProjects env rest
      (r.1, r.2.map (fun ps => resolveProject env p :: ps))
    else
      ([Effect.stderrMsg (("ERROR: Unable to locate project directory: ") ++ p ++ "\n"),
        Effect.usage], Except.error 1)

/-- parse_arguments: resolve and validate the project directories, then
require at least one encryption key when encryption was requested. -/
def parse_arguments (env : Env) (raw : RawArgs) : List Effect × Except Nat Arguments :=
  match resolveProjects env raw.project with
  | (es, Except.error c) => (es, Except.error c)
  | (es, Except.ok ps) =>
    if raw.encrypt = true ∧ raw.keys.length < 1 then
      (es ++ [Effect.stderrMsg ("ERROR: When encrypting, you must pass the name of at least encryption key with the --encryption-key argument.\n"),
        Effect.usage], Except.error 1)
    else
      (es, Except.ok
        { project := ps, encrypt := raw.encrypt, keys := raw.keys, keep := raw.keep,
          output_dir := raw.output_dir, ignored := raw.ignored })

/-- validate_projects: every project must contain a .git directory at its
absolute path; the first failure writes an error to stderr and exits 1. -/
def validate_projects (env : Env) : List ProjectInfo → List Effect × Except Nat Unit
  | [] => ([], Except.ok ())
  | p :: rest =>
    if env.isdir (pathJoin p.abs (".git")) = true then
      validate_projects env rest
    else
      ([Effect.stderrMsg (("ERROR: Project does not have a Git repository: ") ++ p.rel ++ "\n")],
        Except.error 1)

/-- The version string embedded in the archive name: the first eight
characters of the revision when the exact-match tag output is empty,
otherwise the tag, a dot, and the first eight characters of the revision. -/
def versionLabel (tag rev : String) : String :=
  if tag.length = 0 then strTake 8 rev else tag ++ "." ++ strTake 8 rev

/-- The body of the archiving loop for one project: stage the tree (git
clone, or a verbatim copy when ignored files are included), query the
revision and exact-match tag, build the archive in the run temporary
directory, remove the staged tree, and move the archive to the output
directory. -/
def archiveProject (env : Env) (tmpdir : String) (include_ignored : Bool)
    (output_dir : String) (p : ProjectInfo) : List Effect × StagedProject :=
  let ptmp := pathJoin tmpdir p.base
  let rev := env.gitRevision p.abs
  let tag := env.gitTag p.abs
  let archive := pathJoin tmpdir (p.base ++ "." ++ versionLabel tag rev ++ ".7z")
  let output := pathJoin output_dir (basename archive)
  ((if include_ignored = true then
      [Effect.copytree p.abs ptmp]
    else
      [Effect.gitClone p.abs ptmp (env.cloneExit p.abs ptmp)]) ++
   [Effect.gitRevParse p.abs, Effect.gitDescribe p.abs,
    Effect.sevenZip archive ptmp (env.sevenZipExit archive),
    Effect.rmtree ptmp, Effect.move archive output],
   { rel := p.rel, abs := p.abs, base := p.base,
     tmpdir := ptmp, archive := archive, output := output })

/-- create_archives: make the per-run temporary directory, run the archiving
loop over the projects in order, then remove the temporary directory. -/
def create_archives (env : Env) (projects : List ProjectInfo)
    (include_ignored : Bool) (output_dir : String) : List Effect × List StagedProject :=
  let tmpdir := env.mkdtemp
  let step := projects.map (archiveProject env tmpdir include_ignored output_dir)
  ((step.map Prod.fst).flatten ++ [Effect.rmdir tmpdir], step.map Prod.snd)

/-- The gpg argument vector built by encrypt_archives. -/
def gpgArgs (recipients : List String) (archives : List String) : List String :=
  ["/usr/bin/gpg", "--yes", "--trust-model", "always", "--encrypt-files"] ++
    (recipients.map (fun r => ["--recipient", r])).flatten ++ archives

/-- encrypt_archives: one gpg invocation over every output archive (its exit
status is waited on but never inspected), then, unless archives are kept,
removal of every unencrypted archive. -/
def encrypt_archives (env : Env) (projects : List StagedProject)
    (keep_archives : Bool) (recipients : List String) : List Effect :=
  let archives := projects.map (fun p => p.output)
  [Effect.gpgEncrypt (gpgArgs recipients archives) archives env.gpgExit] ++
    (if keep_archives = true then [] else archives.map Effect.removeFile)

/-- main: parse and validate, create the archives, and encrypt them when
requested.  A sys.exit in an earlier stage prevents every later stage. -/
def main (env : Env) (raw : RawArgs) : List Effect × Except Nat Unit :=
  match parse_arguments env raw with
  | (es, Except.error c) => (es, Except.error c)
  | (es, Except.ok args) =>
    match validate_projects env args.project with
    | (es2, Except.error c) => (es ++ es2, Except.error c)
    | (es2, Except.ok _) =>
      let r := create_archives env args.project args.ignored args.output_dir
      let es4 := if args.encrypt = true then
          encrypt_archives env r.2 args.keep args.keys
        else []
      (es ++ es2 ++ r.1 ++ es4, Except.ok ())

/-! ## Derived observations on traces -/

/-- Effects belonging to the archiving stage (staging, git queries,
compression, cleanup and the final move). -/
def Effect.isArchiving : Effect → Bool
  | Effect.gitClone _ _ _ => true
  | Effect.copytree _ _ => true
  | Effect.gitRevParse _ => true
  | Effect.gitDescribe _ => true
  | Effect.sevenZip _ _ _ => true
  | Effect.rmtree _ => true
  | Effect.move _ _ => true
  | Effect.rmdir _ => true
  | _ => false

/-- The filesystem locations an effect writes to, removes, or creates: the
destinations of staging and moves, the archive 7z builds, the trees and
files removed, and the encrypted companions gpg writes next to its file
arguments.  Reads (clone sources, the git query working directories) are
not write targets. -/
def writeTargets : Effect → List String
  | Effect.gitClone _ dst _ => [dst]
  | Effect.copytree _ dst => [dst]
  | Effect.sevenZip archive _ _ => [archive]
  | Effect.rmtree p => [p]
  | Effect.move src dst => [src, dst]
  | Effect.rmdir p => [p]
  | Effect.gpgEncrypt _ files _ => files.map (fun f => f ++ ".gpg")
  | Effect.removeFile p => [p]
  | _ => []

/-- A flat model of the directories and files the run touches, used to read
final on-disk outcomes off an effect trace. -/
structure World where
  files : List String
  dirs : List String
deriving Repr, DecidableEq

/-- Add a path to a listing if absent (creation, or an overwrite of an
existing entry). -/
def addFile (l : List String) (p : String) : List String :=
  if p ∈ l then l else l ++ [p]

/-- Remove a path from a listing. -/
def removePath (l : List String) (p : String) : List String :=
  l.filter (fun q => decide (¬ q = p))

/-- Apply one effect to the world: staging creates a directory, 7z creates
the archive file, rmtree and rmdir remove directories, move transfers a
file (overwriting any file already at the destination), gpg leaves its
inputs in place, and removeFile deletes a file. -/
def stepWorld (w : World) : Effect → World
  | Effect.gitClone _ dst _ => { w with dirs := addFile w.dirs dst }
  | Effect.copytree _ dst => { w with dirs := addFile w.dirs dst }
  | Effect.sevenZip archive _ _ => { w with files := addFile w.files archive }
  | Effect.rmtree p => { w with dirs := removePath w.dirs p }
  | Effect.move src dst => { w with files := addFile (removePath w.files src) dst }
  | Effect.rmdir p => { w with dirs := removePath w.dirs p }
  | Effect.removeFile p => { w with files := removePath w.files p }
  | _ => w

/-- Run a trace of effects on a world. -/
def runWorld (w : World) (es : List Effect) : World := es.foldl stepWorld w

/-! ## String and path lemmas -/

lemma data_append (a b : String) : (a ++ b).data = a.data ++ b.data := rfl

lemma mk_data (s : String) : String.mk s.data = s := rfl

lemma length_eq_zero_iff (s : String) : s.length = 0 ↔ s = "" := by
  constructor
  · intro h
    cases s with
    | mk d =>
      have hd : d = [] := List.length_eq_zero.mp h
      subst hd
      rfl
  · intro h
    subst h
    rfl

lemma takeWhile_all (p : Char → Bool) (l : List Char) (h : ∀ x ∈ l, p x = true) :
    l.takeWhile p = l := by
  induction l with
  | nil => rfl
  | cons a as ih =>
    have ha := h a (by simp)
    simp [List.takeWhile_cons, ha, ih (fun x hx => h x (by simp [hx]))]

lemma takeWhile_append_stop (p : Char → Bool) (l1 : List Char) (c : Char) (l2 : List Char)
    (h : ∀ x ∈ l1, p x = true) (hc : p c = false) :
    (l1 ++ c :: l2).takeWhile p = l1 := by
  induction l1 with
  | nil => simp [List.takeWhile_cons, hc]
  | cons a as ih =>
    have ha := h a (by simp)
    simp [List.takeWhile_cons, ha]
    exact ih (fun x hx => h x (by simp [hx]))

lemma startsWithSlash_eq_false (n : String) (hn : ('/' : Char) ∉ n.data) :
    startsWithSlash n = false := by
  unfold startsWithSlash
  rw [decide_eq_false_iff_not]
  intro h
  exact hn (List.mem_of_mem_head? (Option.mem_def.mpr h))

lemma basename_of_no_slash (n : String) (hn : ('/' : Char) ∉ n.data) : basename n = n := by
  unfold basename
  have hall : ∀ x ∈ n.data.reverse, noSlash x = true := by
    intro x hx
    have hx2 : x ∈ n.data := List.mem_reverse.mp hx
    have hne : ¬ x = '/' := fun hh => hn (hh ▸ hx2)
    simp [noSlash, hne]
  rw [takeWhile_all noSlash n.data.reverse hall, List.reverse_reverse, mk_data]

lemma basename_pathJoin (t n : String) (ht0 : ¬ t = "") (ht1 : endsWithSlash t = false)
    (hn : ('/' : Char) ∉ n.data) : basename (pathJoin t n) = n := by
  have hsw := startsWithSlash_eq_false n hn
  have hj : pathJoin t n = t ++ "/" ++ n := by
    unfold pathJoin
    rw [hsw]
    simp [ht0, ht1]
  rw [hj]
  unfold basename
  have hdata : (t ++ "/" ++ n).data = (t.data ++ ['/']) ++ n.data := by
    rw [data_append, data_append]
  rw [hdata, List.reverse_append, List.reverse_append]
  have hstop : (n.data.reverse ++ ('/' :: t.data.reverse)).takeWhile noSlash
      = n.data.reverse := by
    apply takeWhile_append_stop
    · intro x hx
      have hx2 : x ∈ n.data := List.mem_reverse.mp hx
      have hne : ¬ x = '/' := fun hh => hn (hh ▸ hx2)
      simp [noSlash, hne]
    · simp [noSlash]
  simp only [List.reverse_cons, List.reverse_nil, List.nil_append, List.singleton_append]
  rw [hstop, List.reverse_reverse, mk_data]

lemma str_append_left_cancel {a b c : String} (h : a ++ b = a ++ c) : b = c := by
  have h2 := congrArg String.data h
  rw [data_append, data_append] at h2
  have h3 := List.append_cancel_left h2
  exact String.ext h3

lemma str_append_right_cancel {a b c : String} (h : a ++ c = b ++ c) : a = b := by
  have h2 := congrArg String.data h
  rw [data_append, data_append] at h2
  have h3 := List.append_cancel_right h2
  exact String.ext h3

lemma pathJoin_right_inj {a n1 n2 : String} (h1 : startsWithSlash n1 = false)
    (h2 : startsWithSlash n2 = false) (h : pathJoin a n1 = pathJoin a n2) : n1 = n2 := by
  unfold pathJoin at h
  rw [h1, h2] at h
  simp only [Bool.false_eq_true, if_false] at h
  by_cases ha : a = "" ∨ endsWithSlash a = true
  · rw [if_pos ha, if_pos ha] at h
    exact str_append_left_cancel h
  · rw [if_neg ha, if_neg ha] at h
    exact str_append_left_cancel h

lemma name_inj {base l1 l2 : String}
    (h : base ++ "." ++ l1 ++ ".7z" = base ++ "." ++ l2 ++ ".7z") : l1 = l2 := by
  have h2 : (base ++ ".") ++ l1 = (base ++ ".") ++ l2 := str_append_right_cancel h
  exact str_append_left_cancel h2

/-! ## Pipeline structure lemmas -/

lemma resolveProjects_ok (env : Env) (l : List String) (h : ∀ q ∈ l, env.isdir q = true) :
    resolveProjects env l = ([], Except.ok (l.map (resolveProject env))) := by
  induction l with
  | nil => rfl
  | cons p rest ih =>
    have hp : env.isdir p = true := h p (by simp)
    simp [resolveProjects, hp, ih (fun q hq => h q (by simp [hq])), Except.map]

lemma resolveProjects_ok_effects (env : Env) :
    ∀ (l : List String) (es : List Effect) (ps : List ProjectInfo),
      resolveProjects env l = (es, Except.ok ps) → es = [] := by
  intro l
  induction l with
  | nil =>
    intro es ps h
    simp [resolveProjects] at h
    exact h.1
  | cons p rest ih =>
    intro es ps h
    by_cases hp : env.isdir p = true
    · rcases hr : resolveProjects env rest with ⟨es2, r2⟩
      simp only [resolveProjects, hp, if_true, hr] at h
      cases r2 with
      | error c2 => simp [Except.map] at h
      | ok ps2 =>
        simp [Except.map] at h
        rw [← h.1]
        exact ih es2 ps2 hr
    · simp [resolveProjects, hp] at h

lemma resolveProjects_err_shape (env : Env) :
    ∀ (l : List String) (es : List Effect) (c : Nat),
      resolveProjects env l = (es, Except.error c) →
      c = 1 ∧ ∃ m, es = [Effect.stderrMsg m, Effect.usage] := by
  intro l
  induction l with
  | nil => intro es c h; simp [resolveProjects] at h
  | cons p rest ih =>
    intro es c h
    by_cases hp : env.isdir p = true
    · rcases hr : resolveProjects env rest with ⟨es2, r2⟩
      simp only [resolveProjects, hp, if_true, hr] at h
      cases r2 with
      | error c2 =>
        simp [Except.map] at h
        rw [← h.1, ← h.2]
        exact ih es2 c2 hr
      | ok ps2 => simp [Except.map] at h
    · simp only [resolveProjects, hp, if_false] at h
      simp at h
      exact ⟨h.2.symm, _, h.1.symm⟩

lemma resolveProjects_err (env : Env) (l : List String)
    (hbad : ∃ q ∈ l, env.isdir q = false) :
    ∃ q, q ∈ l ∧ env.isdir q = false ∧
      resolveProjects env l =
        ([Effect.stderrMsg (("ERROR: Unable to locate project directory: ") ++ q ++ "\n"),
          Effect.usage], Except.error 1) := by
  induction l with
  | nil => simp at hbad
  | cons p rest ih =>
    by_cases hp : env.isdir p = true
    · have hb2 : ∃ q ∈ rest, env.isdir q = false := by
        rcases hbad with ⟨q, hq, hqf⟩
        rcases List.mem_cons.mp hq with h1 | h2
        · subst h1; rw [hp] at hqf; cases hqf
        · exact ⟨q, h2, hqf⟩
      rcases ih hb2 with ⟨q, hq, hqf, heq⟩
      refine ⟨q, by simp [hq], hqf, ?_⟩
      simp [resolveProjects, hp, heq, Except.map]
    · refine ⟨p, by simp, by simpa using hp, ?_⟩
      simp [resolveProjects, hp]

lemma parse_arguments_eval (env : Env) (raw : RawArgs) (es2 : List Effect)
    (ps : List ProjectInfo)
    (hr : resolveProjects env raw.project = (es2, Except.ok ps)) :
    parse_arguments env raw =
      if raw.encrypt = true ∧ raw.keys.length < 1 then
        (es2 ++ [Effect.stderrMsg ("ERROR: When encrypting, you must pass the name of at least encryption key with the --encryption-key argument.\n"),
          Effect.usage], Except.error 1)
      else
        (es2, Except.ok
          { project := ps, encrypt := raw.encrypt, keys := raw.keys, keep := raw.keep,
            output_dir := raw.output_dir, ignored := raw.ignored }) := by
  unfold parse_arguments
  rw [hr]

lemma parse_arguments_ok (env : Env) (raw : RawArgs)
    (h1 : ∀ q ∈ raw.project, env.isdir q = true)
    (h2 : raw.encrypt = true → raw.keys ≠ []) :
    parse_arguments env raw =
      ([], Except.ok
        { project := raw.project.map (resolveProject env), encrypt := raw.encrypt,
          keys := raw.keys, keep := raw.keep, output_dir := raw.output_dir,
          ignored := raw.ignored }) := by
  have hcond : ¬ (raw.encrypt = true ∧ raw.keys.length < 1) := by
    rintro ⟨he, hk⟩
    exact h2 he (List.length_eq_zero.mp (Nat.lt_one_iff.mp hk))
  rw [parse_arguments_eval env raw [] (raw.project.map (resolveProject env))
    (resolveProjects_ok env raw.project h1)]
  rw [if_neg hcond]

lemma parse_arguments_keys_err (env : Env) (raw : RawArgs)
    (h1 : ∀ q ∈ raw.project, env.isdir q = true)
    (he : raw.encrypt = true) (hk : raw.keys = []) :
    parse_arguments env raw =
      ([Effect.stderrMsg ("ERROR: When encrypting, you must pass the name of at least encryption key with the --encryption-key argument.\n"),
        Effect.usage], Except.error 1) := by
  have hcond : raw.encrypt = true ∧ raw.keys.length < 1 := ⟨he, by simp [hk]⟩
  rw [parse_arguments_eval env raw [] (raw.project.map (resolveProject env))
    (resolveProjects_ok env raw.project h1)]
  rw [if_pos hcond]
  simp

lemma parse_arguments_res_err (env : Env) (raw : RawArgs) (es2 : List Effect) (c2 : Nat)
    (hr : resolveProjects env raw.project = (es2, Except.error c2)) :
    parse_arguments env raw = (es2, Except.error c2) := by
  unfold parse_arguments
  rw [hr]

lemma parse_arguments_err_shape (env : Env) (raw : RawArgs) (es : List Effect) (c : Nat)
    (h : parse_arguments env raw = (es, Except.error c)) :
    c = 1 ∧ ∃ m, es = [Effect.stderrMsg m, Effect.usage] := by
  rcases hr : resolveProjects env raw.project with ⟨es2, r2⟩
  cases r2 with
  | error c2 =>
    rw [parse_arguments_res_err env raw es2 c2 hr] at h
    simp at h
    rw [← h.1, ← h.2]
    exact resolveProjects_err_shape env raw.project es2 c2 hr
  | ok ps =>
    have hes2 : es2 = [] := resolveProjects_ok_effects env raw.project es2 ps hr
    subst hes2
    rw [parse_arguments_eval env raw [] ps hr] at h
    by_cases hcond : raw.encrypt = true ∧ raw.keys.length < 1
    · rw [if_pos hcond] at h
      simp at h
      exact ⟨h.2.symm, _, h.1.symm⟩
    · rw [if_neg hcond] at h
      simp at h

lemma validate_projects_ok (env : Env) (ps : List ProjectInfo)
    (h : ∀ p ∈ ps, env.isdir (pathJoin p.abs (".git")) = true) :
    validate_projects env ps = ([], Except.ok ()) := by
  induction ps with
  | nil => rfl
  | cons p rest ih =>
    simp [validate_projects, h p (by simp), ih (fun q hq => h q (by simp [hq]))]

lemma validate_projects_err (env : Env) (ps : List ProjectInfo)
    (hbad : ∃ p ∈ ps, env.isdir (pathJoin p.abs (".git")) = false) :
    ∃ m, validate_projects env ps = ([Effect.stderrMsg m], Except.error 1) := by
  induction ps with
  | nil => simp at hbad
  | cons p rest ih =>
    by_cases hp : env.isdir (pathJoin p.abs (".git")) = true
    · have hb2 : ∃ q ∈ rest, env.isdir (pathJoin q.abs (".git")) = false := by
        rcases hbad with ⟨q, hq, hqf⟩
        rcases List.mem_cons.mp hq with h1 | h2
        · subst h1; rw [hp] at hqf; cases hqf
        · exact ⟨q, h2, hqf⟩
      rcases ih hb2 with ⟨m, hm⟩
      exact ⟨m, by simp [validate_projects, hp, hm]⟩
    · exact ⟨("ERROR: Project does not have a Git repository: ") ++ p.rel ++ "\n",
        by simp [validate_projects, hp]⟩

lemma validate_projects_err_shape (env : Env) :
    ∀ (ps : List ProjectInfo) (es : List Effect) (c : Nat),
      validate_projects env ps = (es, Except.error c) →
      c = 1 ∧ ∃ m, es = [Effect.stderrMsg m] := by
  intro ps
  induction ps with
  | nil => intro es c h; simp [validate_projects] at h
  | cons p rest ih =>
    intro es c h
    by_cases hp : env.isdir (pathJoin p.abs (".git")) = true
    · simp only [validate_projects, hp, if_true] at h
      exact ih es c h
    · simp only [validate_projects, hp, if_false] at h
      simp at h
      exact ⟨h.2.symm, _, h.1.symm⟩

lemma main_parse_err (env : Env) (raw : RawArgs) (es : List Effect) (c : Nat)
    (h : parse_arguments env raw = (es, Except.error c)) :
    main env raw = (es, Except.error c) := by
  unfold main
  rw [h]

lemma main_validate_err (env : Env) (raw : RawArgs) (args : Arguments)
    (es2 : List Effect) (c : Nat)
    (hp : parse_arguments env raw = ([], Except.ok args))
    (hv : validate_projects env args.project = (es2, Except.error c)) :
    main env raw = (es2, Except.error c) := by
  unfold main
  rw [hp]
  simp [hv]

lemma main_ok (env : Env) (raw : RawArgs)
    (h1 : ∀ q ∈ raw.project, env.isdir q = true)
    (h2 : raw.encrypt = true → raw.keys ≠ [])
    (h3 : ∀ p ∈ raw.project.map (resolveProject env),
      env.isdir (pathJoin p.abs (".git")) = true) :
    main env raw =
      ((create_archives env (raw.project.map (resolveProject env))
          raw.ignored raw.output_dir).1 ++
        (if raw.encrypt = true then
          encrypt_archives env
            (create_archives env (raw.project.map (resolveProject env))
              raw.ignored raw.output_dir).2 raw.keep raw.keys
        else []),
       Except.ok ()) := by
  unfold main
  rw [parse_arguments_ok env raw h1 h2]
  simp [validate_projects_ok env (raw.project.map (resolveProject env)) h3]

/-! ## Archiving-stage structure lemmas -/

lemma create_archives_fst (env : Env) (ps : List ProjectInfo) (ign : Bool) (out : String) :
    (create_archives env ps ign out).1 =
      (ps.map (fun p => (archiveProject env env.mkdtemp ign out p).1)).flatten ++
        [Effect.rmdir env.mkdtemp] := by
  simp only [create_archives, List.map_map]
  rfl

lemma create_archives_snd (env : Env) (ps : List ProjectInfo) (ign : Bool) (out : String) :
    (create_archives env ps ign out).2 =
      ps.map (fun p => (archiveProject env env.mkdtemp ign out p).2) := by
  simp [create_archives, List.map_map]

lemma block_sub_trace (env : Env) (ps : List ProjectInfo) (ign : Bool) (out : String)
    (p : ProjectInfo) (hp : p ∈ ps) (e : Effect)
    (he : e ∈ (archiveProject env env.mkdtemp ign out p).1) :
    e ∈ (create_archives env ps ign out).1 := by
  rw [create_archives_fst]
  apply List.mem_append_left
  exact List.mem_flatten.mpr ⟨_, List.mem_map_of_mem _ hp, he⟩

/-! ## World-model lemmas -/

lemma mem_addFile {l : List String} {p x : String} :
    x ∈ addFile l p ↔ x ∈ l ∨ x = p := by
  unfold addFile
  by_cases hp : p ∈ l
  · rw [if_pos hp]
    constructor
    · exact fun h => Or.inl h
    · rintro (h | h)
      · exact h
      · rw [h]; exact hp
  · rw [if_neg hp]
    simp [List.mem_append]

lemma addFile_append (fs : List String) (a : String) (h : a ∉ fs) :
    addFile fs a = fs ++ [a] := by
  unfold addFile
  rw [if_neg h]

lemma addFile_single_ne (a b : String) (h : ¬ b = a) : addFile [a] b = [a, b] := by
  unfold addFile
  rw [if_neg (by simp [h])]
  rfl

lemma removePath_pair (a b : String) (h : ¬ a = b) : removePath [a, b] b = [a] := by
  unfold removePath
  simp [h]

lemma removePath_append_one (fs : List String) (a : String) (h : a ∉ fs) :
    removePath (fs ++ [a]) a = fs := by
  unfold removePath
  rw [List.filter_append]
  have h2 : fs.filter (fun q => decide (¬ q = a)) = fs := by
    apply List.filter_eq_self.mpr
    intro x hx
    simp only [decide_eq_true_eq]
    exact fun hh => h (hh ▸ hx)
  rw [h2]
  simp

lemma runWorld_append (w : World) (es1 es2 : List Effect) :
    runWorld w (es1 ++ es2) = runWorld (runWorld w es1) es2 := by
  unfold runWorld
  rw [List.foldl_append]

lemma archive_block_world (env : Env) (tmpd : String) (ign : Bool) (out : String)
    (p : ProjectInfo) (fs : List String)
    (h1 : (archiveProject env tmpd ign out p).2.archive ∉ fs)
    (h3 : ¬ pathJoin tmpd p.base = tmpd) :
    runWorld { files := fs, dirs := [tmpd] } (archiveProject env tmpd ign out p).1
      = { files := addFile fs (archiveProject env tmpd ign out p).2.output,
          dirs := [tmpd] } := by
  have hne : ¬ tmpd = pathJoin tmpd p.base := fun hh => h3 hh.symm
  have harch : (archiveProject env tmpd ign out p).2.archive
      = pathJoin tmpd (p.base ++ "." ++ versionLabel (env.gitTag p.abs)
          (env.gitRevision p.abs) ++ ".7z") := rfl
  rw [harch] at h1
  cases ign with
  | false =>
    simp only [archiveProject, runWorld, List.cons_append, List.nil_append,
      List.foldl_cons, List.foldl_nil, stepWorld, Bool.false_eq_true, if_false]
    rw [addFile_single_ne tmpd (pathJoin tmpd p.base) h3,
      addFile_append fs _ h1,
      removePath_pair tmpd (pathJoin tmpd p.base) hne,
      removePath_append_one fs _ h1]
  | true =>
    simp only [archiveProject, runWorld, List.cons_append, List.nil_append,
      List.foldl_cons, List.foldl_nil, stepWorld, if_true]
    rw [addFile_single_ne tmpd (pathJoin tmpd p.base) h3,
      addFile_append fs _ h1,
      removePath_pair tmpd (pathJoin tmpd p.base) hne,
      removePath_append_one fs _ h1]

lemma create_world (env : Env) (ign : Bool) (out : String) :
    ∀ (ps : List ProjectInfo) (fs : List String),
      (∀ p ∈ ps, ¬ pathJoin env.mkdtemp p.base = env.mkdtemp) →
      (∀ p ∈ ps, (archiveProject env env.mkdtemp ign out p).2.archive ∉ fs) →
      (∀ p ∈ ps, ∀ q ∈ ps, ¬ (archiveProject env env.mkdtemp ign out p).2.archive
          = (archiveProject env env.mkdtemp ign out q).2.output) →
      runWorld { files := fs, dirs := [env.mkdtemp] }
          ((ps.map (fun p => (archiveProject env env.mkdtemp ign out p).1)).flatten)
        = { files := List.foldl addFile fs
              (ps.map (fun p => (archiveProject env env.mkdtemp ign out p).2.output)),
            dirs := [env.mkdtemp] } := by
  intro ps
  induction ps with
  | nil => intro fs _ _ _; rfl
  | cons p rest ih =>
    intro fs h1 h2 h3
    simp only [List.map_cons, List.flatten_cons]
    rw [runWorld_append]
    rw [archive_block_world env env.mkdtemp ign out p fs (h2 p (by simp)) (h1 p (by simp))]
    rw [ih (addFile fs ((archiveProject env env.mkdtemp ign out p).2.output))
      (fun q hq => h1 q (by simp [hq]))
      ?_ (fun q hq q2 hq2 => h3 q (by simp [hq]) q2 (by simp [hq2]))]
    · rw [List.foldl_cons]
    · intro q hq hmem
      rcases mem_addFile.mp hmem with hm | hm
      · exact h2 q (by simp [hq]) hm
      · exact h3 q (by simp [hq]) p (by simp) hm

lemma foldl_addFile_of_nodup :
    ∀ (l acc : List String), l.Nodup → (∀ x ∈ l, x ∉ acc) →
      List.foldl addFile acc l = acc ++ l := by
  intro l
  induction l with
  | nil => intro acc _ _; simp
  | cons x xs ih =>
    intro acc hnd hacc
    rw [List.foldl_cons, addFile_append acc x (hacc x (by simp))]
    rw [ih (acc ++ [x]) (List.nodup_cons.mp hnd).2 ?_]
    · simp
    · intro y hy hmem
      rcases List.mem_append.mp hmem with h | h
      · exact hacc y (by simp [hy]) h
      · have hyx : y = x := by simpa using h
        exact (List.nodup_cons.mp hnd).1 (hyx ▸ hy)

lemma block_pair_sublist (env : Env) (tmpd : String) (ign : Bool) (out : String)
    (p : ProjectInfo) :
    List.Sublist
      [Effect.sevenZip (archiveProject env tmpd ign out p).2.archive (pathJoin tmpd p.base)
        (env.sevenZipExit (archiveProject env tmpd ign out p).2.archive),
       Effect.rmtree (pathJoin tmpd p.base)]
      (archiveProject env tmpd ign out p).1 := by
  have hcore : ∀ (e1 e2 rp gd mv : Effect),
      List.Sublist [e1, e2] [rp, gd, e1, e2, mv] := by
    intro e1 e2 rp gd mv
    exact List.Sublist.cons rp (List.Sublist.cons gd
      (List.Sublist.cons₂ e1 (List.Sublist.cons₂ e2 (List.nil_sublist [mv]))))
  cases ign with
  | false =>
    simp only [archiveProject, List.cons_append, List.nil_append,
      Bool.false_eq_true, if_false]
    exact List.Sublist.cons _ (hcore _ _ _ _ _)
  | true =>
    simp only [archiveProject, List.cons_append, List.nil_append, if_true]
    exact List.Sublist.cons _ (hcore _ _ _ _ _)

/-! ## Concrete environments and inputs for witnesses and counterexamples -/

/-- A fully healthy environment: every path is a directory, the current
commit carries the exact-match tag v1.2.0, every process exits 0. -/
def envW : Env :=
  { isdir := fun _ => true, abspath := fun s => ("/r/") ++ s, mkdtemp := "/tmp/t0",
    gitRevision := fun _ => "abcdef1234abcdef1234abcdef1234abcdef1234",
    gitTag := fun _ => "v1.2.0",
    cloneExit := fun _ _ => 0, sevenZipExit := fun _ => 0, gpgExit := 0 }

/-- An environment with no exact-match tag in which the gpg invocation
exits 1 (encryption fails). -/
def envE : Env :=
  { isdir := fun _ => true, abspath := fun s => ("/r/") ++ s, mkdtemp := "/tmp/t0",
    gitRevision := fun _ => "abcdef1234abcdef1234abcdef1234abcdef1234",
    gitTag := fun _ => "",
    cloneExit := fun _ _ => 0, sevenZipExit := fun _ => 0, gpgExit := 1 }

/-- An environment in which /r/bad has no .git directory but everything
else exists. -/
def envV : Env :=
  { isdir := fun s => decide (¬ s = "/r/bad/.git"), abspath := fun s => ("/r/") ++ s,
    mkdtemp := "/tmp/t0",
    gitRevision := fun _ => "abcdef1234abcdef1234abcdef1234abcdef1234",
    gitTag := fun _ => "",
    cloneExit := fun _ _ => 0, sevenZipExit := fun _ => 0, gpgExit := 0 }

/-- An environment in which the path nope is not a directory. -/
def envN : Env :=
  { isdir := fun s => decide (¬ s = "nope"), abspath := fun s => ("/r/") ++ s,
    mkdtemp := "/tmp/t0",
    gitRevision := fun _ => "abcdef1234abcdef1234abcdef1234abcdef1234",
    gitTag := fun _ => "",
    cloneExit := fun _ _ => 0, sevenZipExit := fun _ => 0, gpgExit := 0 }

/-- An environment with two working copies of one repository: distinct
absolute paths, equal base names, distinct checked-out revisions. -/
def envC9 : Env :=
  { isdir := fun _ => true, abspath := fun s => ("/r/") ++ s, mkdtemp := "/tmp/t0",
    gitRevision := fun a =>
      if a = "/r/a/p" then "1111111111111111111111111111111111111111"
      else "2222222222222222222222222222222222222222",
    gitTag := fun _ => "",
    cloneExit := fun _ _ => 0, sevenZipExit := fun _ => 0, gpgExit := 0 }

def rawW1 : RawArgs :=
  { project := ["p"], encrypt := false, keys := [], keep := false,
    output_dir := "./", ignored := false }

def rawW2 : RawArgs :=
  { project := ["p", "q"], encrypt := false, keys := [], keep := false,
    output_dir := "./", ignored := false }

def rawE : RawArgs :=
  { project := ["p"], encrypt := true, keys := ["alice"], keep := false,
    output_dir := "./", ignored := false }

def rawDup : RawArgs :=
  { project := ["a/p", "b/p"], encrypt := false, keys := [], keep := false,
    output_dir := "./", ignored := false }

def rawA : RawArgs :=
  { project := ["p"], encrypt := false, keys := [], keep := false,
    output_dir := "p", ignored := false }

def rawK : RawArgs :=
  { project := ["p"], encrypt := true, keys := [], keep := false,
    output_dir := "./", ignored := false }

def rawN : RawArgs :=
  { project := ["nope"], encrypt := false, keys := [], keep := false,
    output_dir := "./", ignored := false }

def rawV : RawArgs :=
  { project := ["good", "bad"], encrypt := false, keys := [], keep := false,
    output_dir := "./", ignored := false }

/-! ## Claims -/

/-- Claim C4: if any supplied project path lacks a version-control metadata
directory (.git) at its resolved absolute path, the process exits nonzero
and performs no archiving effect, even when every supplied path is a
directory. -/
theorem c4_git_validation_blocks_archiving (env : Env) (raw : RawArgs)
    (hdirs : ∀ q ∈ raw.project, env.isdir q = true)
    (hbad : ∃ q ∈ raw.project,
      env.isdir (pathJoin (env.abspath q) (".git")) = false) :
    exitCode (main env raw).2 = 1 ∧
      ∀ e ∈ (main env raw).1, e.isArchiving = false := by
  by_cases henc : raw.encrypt = true ∧ raw.keys = []
  · rw [main_parse_err env raw _ _ (parse_arguments_keys_err env raw hdirs henc.1 henc.2)]
    refine ⟨rfl, ?_⟩
    intro e he
    simp at he
    rcases he with h | h <;> subst h <;> rfl
  · have henc2 : raw.encrypt = true → raw.keys ≠ [] := fun he hk => henc ⟨he, hk⟩
    have hp := parse_arguments_ok env raw hdirs henc2
    have hbad2 : ∃ p ∈ raw.project.map (resolveProject env),
        env.isdir (pathJoin p.abs (".git")) = false := by
      rcases hbad with ⟨q, hq, hqf⟩
      exact ⟨resolveProject env q, List.mem_map_of_mem _ hq, hqf⟩
    rcases validate_projects_err env _ hbad2 with ⟨m, hm⟩
    rw [main_validate_err env raw _ _ _ hp hm]
    refine ⟨rfl, ?_⟩
    intro e he
    simp at he
    subst he
    rfl

/-- Witness for C4: the path bad is a directory without .git while good is
a fully valid project; the run exits 1 with no archiving effect. -/
theorem c4_git_validation_blocks_archiving_witness :
    exitCode (main envV rawV).2 = 1 ∧
      ∀ e ∈ (main envV rawV).1, e.isArchiving = false :=
  c4_git_validation_blocks_archiving envV rawV (by decide) (by decide)

/-- Claim C5: encryption requested with zero recipient keys always exits
nonzero with a message on the error stream and performs no archiving. -/
theorem c5_encrypt_without_keys (env : Env) (raw : RawArgs)
    (henc : raw.encrypt = true) (hkeys : raw.keys = []) :
    exitCode (main env raw).2 = 1 ∧
      (∃ m, Effect.stderrMsg m ∈ (main env raw).1) ∧
      ∀ e ∈ (main env raw).1, e.isArchiving = false := by
  rcases hr : resolveProjects env raw.project with ⟨es2, r2⟩
  cases r2 with
  | error c2 =>
    rw [main_parse_err env raw es2 c2 (parse_arguments_res_err env raw es2 c2 hr)]
    rcases resolveProjects_err_shape env raw.project es2 c2 hr with ⟨hc, m, hm⟩
    subst hc
    subst hm
    refine ⟨rfl, ⟨m, by simp⟩, ?_⟩
    intro e he
    simp at he
    rcases he with h | h <;> subst h <;> rfl
  | ok ps =>
    have hes2 := resolveProjects_ok_effects env raw.project es2 ps hr
    subst hes2
    have hpe := parse_arguments_eval env raw [] ps hr
    rw [if_pos ⟨henc, by simp [hkeys]⟩] at hpe
    rw [main_parse_err env raw _ _ hpe]
    refine ⟨rfl,
      ⟨("ERROR: When encrypting, you must pass the name of at least encryption key with the --encryption-key argument.\n"),
        by simp⟩, ?_⟩
    intro e he
    simp at he
    rcases he with h | h <;> subst h <;> rfl

/-- Witness for C5: a run with the encrypt option and an empty key list on
an otherwise valid project exits 1 without archiving. -/
theorem c5_encrypt_without_keys_witness :
    exitCode (main envW rawK).2 = 1 ∧
      (∃ m, Effect.stderrMsg m ∈ (main envW rawK).1) ∧
      ∀ e ∈ (main envW rawK).1, e.isArchiving = false :=
  c5_encrypt_without_keys envW rawK (by decide) (by decide)

/-- Claim C6: a supplied project path that is not a directory makes the
process write an error message and a usage message to the error stream and
exit nonzero before any archiving occurs. -/
theorem c6_nondirectory_rejected (env : Env) (raw : RawArgs)
    (hbad : ∃ q ∈ raw.project, env.isdir q = false) :
    exitCode (main env raw).2 = 1 ∧
      (∃ q, q ∈ raw.project ∧ env.isdir q = false ∧
        Effect.stderrMsg (("ERROR: Unable to locate project directory: ") ++ q ++ "\n")
          ∈ (main env raw).1) ∧
      Effect.usage ∈ (main env raw).1 ∧
      ∀ e ∈ (main env raw).1, e.isArchiving = false := by
  rcases resolveProjects_err env raw.project hbad with ⟨q, hq, hqf, heq⟩
  rw [main_parse_err env raw _ _ (parse_arguments_res_err env raw _ _ heq)]
  refine ⟨rfl, ⟨q, hq, hqf, by simp⟩, by simp, ?_⟩
  intro e he
  simp at he
  rcases he with h | h <;> subst h <;> rfl

/-- Witness for C6: the path nope is not a directory; the run writes the
error and the usage to stderr and exits 1 without archiving. -/
theorem c6_nondirectory_rejected_witness :
    exitCode (main envN rawN).2 = 1 ∧
      (∃ q, q ∈ rawN.project ∧ envN.isdir q = false ∧
        Effect.stderrMsg (("ERROR: Unable to locate project directory: ") ++ q ++ "\n")
          ∈ (main envN rawN).1) ∧
      Effect.usage ∈ (main envN rawN).1 ∧
      ∀ e ∈ (main envN rawN).1, e.isArchiving = false :=
  c6_nondirectory_rejected envN rawN (by decide)

lemma versionLabel_no_slash (tag rev : String)
    (ht : ('/' : Char) ∉ tag.data) (hr : ('/' : Char) ∉ rev.data) :
    ('/' : Char) ∉ (versionLabel tag rev).data := by
  have hrt : ('/' : Char) ∉ (strTake 8 rev).data := by
    intro h
    exact hr (List.mem_of_mem_take h)
  unfold versionLabel
  by_cases hlen : tag.length = 0
  · rw [if_pos hlen]; exact hrt
  · rw [if_neg hlen]
    intro h
    simp only [data_append] at h
    rcases List.mem_append.mp h with h1 | h2
    · rcases List.mem_append.mp h1 with h3 | h4
      · exact ht h3
      · simp at h4
    · exact hrt h2

lemma archive_name_no_slash (bse lbl : String)
    (hb : ('/' : Char) ∉ bse.data) (hl : ('/' : Char) ∉ lbl.data) :
    ('/' : Char) ∉ (bse ++ "." ++ lbl ++ ".7z").data := by
  intro h
  simp only [data_append] at h
  rcases List.mem_append.mp h with h1 | h2
  · rcases List.mem_append.mp h1 with h3 | h4
    · rcases List.mem_append.mp h3 with h5 | h6
      · exact hb h5
      · simp at h6
    · exact hl h4
  · simp at h2

lemma move_mem_block (env : Env) (tmpd : String) (ign : Bool) (out : String)
    (p : ProjectInfo) :
    Effect.move (archiveProject env tmpd ign out p).2.archive
      (archiveProject env tmpd ign out p).2.output
      ∈ (archiveProject env tmpd ign out p).1 := by
  cases ign with
  | false => simp [archiveProject]
  | true => simp [archiveProject]

/-- Claim C1: for every project, the version label is the exact-match tag, a
dot, and the first 8 characters of the revision when such a tag exists (the
tag query printed something), and the first 8 characters of the revision
alone otherwise; the final archive is named baseName.versionLabel.7z and is
placed in the output directory, via a move recorded in the trace. -/
theorem c1_version_label_and_output_name (env : Env) (ps : List ProjectInfo)
    (ign : Bool) (out : String)
    (h1 : ¬ env.mkdtemp = "") (h2 : endsWithSlash env.mkdtemp = false)
    (hb : ∀ p ∈ ps, ('/' : Char) ∉ p.base.data)
    (ht : ∀ p ∈ ps, ('/' : Char) ∉ (env.gitTag p.abs).data)
    (hr : ∀ p ∈ ps, ('/' : Char) ∉ (env.gitRevision p.abs).data) :
    ∀ s ∈ (create_archives env ps ign out).2,
      s.output = pathJoin out (s.base ++ "." ++ versionLabel (env.gitTag s.abs)
        (env.gitRevision s.abs) ++ ".7z") ∧
      (env.gitTag s.abs = "" →
        versionLabel (env.gitTag s.abs) (env.gitRevision s.abs)
          = strTake 8 (env.gitRevision s.abs)) ∧
      (¬ env.gitTag s.abs = "" →
        versionLabel (env.gitTag s.abs) (env.gitRevision s.abs)
          = env.gitTag s.abs ++ "." ++ strTake 8 (env.gitRevision s.abs)) ∧
      Effect.move s.archive s.output ∈ (create_archives env ps ign out).1 := by
  intro s hs
  rw [create_archives_snd] at hs
  rcases List.mem_map.mp hs with ⟨p, hp, hsp⟩
  subst hsp
  have hname := archive_name_no_slash p.base
    (versionLabel (env.gitTag p.abs) (env.gitRevision p.abs)) (hb p hp)
    (versionLabel_no_slash (env.gitTag p.abs) (env.gitRevision p.abs) (ht p hp) (hr p hp))
  have houtput : (archiveProject env env.mkdtemp ign out p).2.output
      = pathJoin out (p.base ++ "." ++ versionLabel (env.gitTag p.abs)
          (env.gitRevision p.abs) ++ ".7z") := by
    show pathJoin out (basename (pathJoin env.mkdtemp (p.base ++ "." ++
      versionLabel (env.gitTag p.abs) (env.gitRevision p.abs) ++ ".7z"))) = _
    rw [basename_pathJoin env.mkdtemp _ h1 h2 hname]
  refine ⟨houtput, ?_, ?_, ?_⟩
  · intro htag
    unfold versionLabel
    rw [if_pos (by simp [htag])]
  · intro htag
    unfold versionLabel
    rw [if_neg (fun h0 => htag ((length_eq_zero_iff _).mp h0))]
  · exact block_sub_trace env ps ign out p hp _ (move_mem_block env env.mkdtemp ign out p)

/-- The staged record for the single project p in the healthy environment. -/
def stagedW1 : StagedProject :=
  (archiveProject envW "/tmp/t0" false ("./") (resolveProject envW ("p"))).2

/-- Witness for C1: with tag v1.2.0 and revision abcdef1234..., the output
archive is ./p.v1.2.0.abcdef12.7z, matching the spec example. -/
theorem c1_version_label_and_output_name_witness :
    (stagedW1.output = pathJoin ("./") (stagedW1.base ++ "." ++
        versionLabel (envW.gitTag stagedW1.abs) (envW.gitRevision stagedW1.abs) ++ ".7z") ∧
      (envW.gitTag stagedW1.abs = "" →
        versionLabel (envW.gitTag stagedW1.abs) (envW.gitRevision stagedW1.abs)
          = strTake 8 (envW.gitRevision stagedW1.abs)) ∧
      (¬ envW.gitTag stagedW1.abs = "" →
        versionLabel (envW.gitTag stagedW1.abs) (envW.gitRevision stagedW1.abs)
          = envW.gitTag stagedW1.abs ++ "." ++ strTake 8 (envW.gitRevision stagedW1.abs)) ∧
      Effect.move stagedW1.archive stagedW1.output
        ∈ (create_archives envW [resolveProject envW ("p")] false ("./")).1) ∧
    stagedW1.output = ("./p.v1.2.0.abcdef12.7z") :=
  ⟨c1_version_label_and_output_name envW [resolveProject envW ("p")] false ("./")
      (by decide) (by decide) (by decide) (by decide) (by decide)
      stagedW1 (by decide),
    by decide⟩

/-- Claim C8: with the include-ignored option unset each project is staged
by a git clone of its directory (a clean checkout, which excludes ignored
files) and no verbatim copy occurs; with the option set it is staged by a
verbatim recursive copy and no clone occurs. -/
theorem c8_staging_mode (env : Env) (ps : List ProjectInfo) (ign : Bool) (out : String)
    (p : ProjectInfo) (hp : p ∈ ps) :
    (ign = false →
      Effect.gitClone p.abs (pathJoin env.mkdtemp p.base)
          (env.cloneExit p.abs (pathJoin env.mkdtemp p.base))
        ∈ (create_archives env ps ign out).1 ∧
      ∀ a b, Effect.copytree a b ∉ (create_archives env ps ign out).1) ∧
    (ign = true →
      Effect.copytree p.abs (pathJoin env.mkdtemp p.base)
        ∈ (create_archives env ps ign out).1 ∧
      ∀ a b c, Effect.gitClone a b c ∉ (create_archives env ps ign out).1) := by
  constructor
  · intro hign
    subst hign
    constructor
    · apply block_sub_trace env ps false out p hp
      simp [archiveProject]
    · intro a b hmem
      rw [create_archives_fst] at hmem
      rcases List.mem_append.mp hmem with hmem1 | hmem2
      · rcases List.mem_flatten.mp hmem1 with ⟨blk, hblk, hin⟩
        rcases List.mem_map.mp hblk with ⟨q, hq, hbq⟩
        subst hbq
        simp [archiveProject] at hin
      · simp at hmem2
  · intro hign
    subst hign
    constructor
    · apply block_sub_trace env ps true out p hp
      simp [archiveProject]
    · intro a b c hmem
      rw [create_archives_fst] at hmem
      rcases List.mem_append.mp hmem with hmem1 | hmem2
      · rcases List.mem_flatten.mp hmem1 with ⟨blk, hblk, hin⟩
        rcases List.mem_map.mp hblk with ⟨q, hq, hbq⟩
        subst hbq
        simp [archiveProject] at hin
      · simp at hmem2

/-- Witness for C8 at a concrete run without the include-ignored option:
the project is staged by git clone and no copytree effect occurs. -/
theorem c8_staging_mode_witness :
    (false = false →
      Effect.gitClone (resolveProject envW ("p")).abs
          (pathJoin envW.mkdtemp (resolveProject envW ("p")).base)
          (envW.cloneExit (resolveProject envW ("p")).abs
            (pathJoin envW.mkdtemp (resolveProject envW ("p")).base))
        ∈ (create_archives envW [resolveProject envW ("p")] false ("./")).1 ∧
      ∀ a b, Effect.copytree a b
        ∉ (create_archives envW [resolveProject envW ("p")] false ("./")).1) ∧
    (false = true →
      Effect.copytree (resolveProject envW ("p")).abs
          (pathJoin envW.mkdtemp (resolveProject envW ("p")).base)
        ∈ (create_archives envW [resolveProject envW ("p")] false ("./")).1 ∧
      ∀ a b c, Effect.gitClone a b c
        ∉ (create_archives envW [resolveProject envW ("p")] false ("./")).1) :=
  c8_staging_mode envW [resolveProject envW ("p")] false ("./")
    (resolveProject envW ("p")) (by decide)

lemma create_archives_no_stderr (env : Env) (ps : List ProjectInfo) (ign : Bool)
    (out : String) (m : String) :
    Effect.stderrMsg m ∉ (create_archives env ps ign out).1 := by
  intro hmem
  rw [create_archives_fst] at hmem
  rcases List.mem_append.mp hmem with h1 | h2
  · rcases List.mem_flatten.mp h1 with ⟨blk, hblk, hin⟩
    rcases List.mem_map.mp hblk with ⟨q, hq, hbq⟩
    subst hbq
    cases ign with
    | false => simp [archiveProject] at hin
    | true => simp [archiveProject] at hin
  · simp at h2

/-- Counterexample to claim C2 as stated: with keep-archive unset and the
encryption invocation exiting 1 (a failed encryption), the run still
removes the unencrypted archive and exits 0. -/
theorem c2_counterexample :
    envE.gpgExit = 1 ∧ rawE.keep = false ∧
      Effect.gpgEncrypt (gpgArgs (["alice"]) (["./p.abcdef12.7z"]))
        (["./p.abcdef12.7z"]) 1 ∈ (main envE rawE).1 ∧
      Effect.removeFile ("./p.abcdef12.7z") ∈ (main envE rawE).1 ∧
      exitCode (main envE rawE).2 = 0 :=
  ⟨rfl, rfl, by decide, by decide, rfl⟩

/-- Amended C2: when encryption is requested the unencrypted archives are
deleted exactly when keep-archive is unset, regardless of the encryption
exit status, which the script never inspects; with keep-archive set the
encryption invocation is the only effect of the stage, so every unencrypted
archive remains. -/
theorem c2_amended_deletion_ignores_gpg_exit (env : Env)
    (staged : List StagedProject) (recips : List String) :
    (encrypt_archives env staged true recips
      = [Effect.gpgEncrypt (gpgArgs recips (staged.map (fun s => s.output)))
          (staged.map (fun s => s.output)) env.gpgExit]) ∧
    (∀ s ∈ staged,
      Effect.removeFile s.output ∈ encrypt_archives env staged false recips) ∧
    (∀ p, Effect.removeFile p ∉ encrypt_archives env staged true recips) := by
  refine ⟨rfl, ?_, ?_⟩
  · intro s hs
    simp only [encrypt_archives, Bool.false_eq_true, if_false]
    apply List.mem_append_right
    exact List.mem_map_of_mem _ (List.mem_map_of_mem _ hs)
  · intro p hmem
    simp [encrypt_archives] at hmem

/-- The staged record for project p in the environment where gpg fails. -/
def stagedE1 : StagedProject :=
  (archiveProject envE "/tmp/t0" false ("./") (resolveProject envE ("p"))).2

/-- Witness for the amended C2 at a concrete input. -/
theorem c2_amended_deletion_ignores_gpg_exit_witness :
    (encrypt_archives envE [stagedE1] true (["alice"])
      = [Effect.gpgEncrypt (gpgArgs (["alice"]) ([stagedE1].map (fun s => s.output)))
          ([stagedE1].map (fun s => s.output)) envE.gpgExit]) ∧
    (∀ s ∈ [stagedE1],
      Effect.removeFile s.output ∈ encrypt_archives envE [stagedE1] false (["alice"])) ∧
    (∀ p, Effect.removeFile p ∉ encrypt_archives envE [stagedE1] true (["alice"])) :=
  c2_amended_deletion_ignores_gpg_exit envE [stagedE1] (["alice"])

/-- Counterexample to claim C3 as stated: the encryption invocation exits 1
yet the process falls through main and exits 0 instead of terminating with
a nonzero exit code. -/
theorem c3_counterexample :
    Effect.gpgEncrypt (gpgArgs (["alice"]) (["./p.abcdef12.7z"]))
      (["./p.abcdef12.7z"]) 1 ∈ (main envE rawE).1 ∧
    (main envE rawE).2 = Except.ok () ∧
    exitCode (main envE rawE).2 = 0 :=
  ⟨by decide, rfl, rfl⟩

/-- Amended C3: a nonzero exit status from the encryption invocation is not
detected: on an otherwise valid encrypted run the script exits 0 and writes
no error message of its own, whatever status gpg returned (gpg's own stderr
is merely passed through). -/
theorem c3_amended_gpg_exit_ignored (env : Env) (raw : RawArgs)
    (h1 : ∀ q ∈ raw.project, env.isdir q = true)
    (h2 : ∀ p ∈ raw.project.map (resolveProject env),
      env.isdir (pathJoin p.abs (".git")) = true)
    (h3 : raw.encrypt = true) (h4 : ¬ raw.keys = []) :
    exitCode (main env raw).2 = 0 ∧
    Effect.gpgEncrypt
        (gpgArgs raw.keys ((create_archives env (raw.project.map (resolveProject env))
          raw.ignored raw.output_dir).2.map (fun s => s.output)))
        ((create_archives env (raw.project.map (resolveProject env))
          raw.ignored raw.output_dir).2.map (fun s => s.output)) env.gpgExit
      ∈ (main env raw).1 ∧
    ∀ m, Effect.stderrMsg m ∉ (main env raw).1 := by
  have hm := main_ok env raw h1 (fun _ => h4) h2
  rw [hm]
  refine ⟨rfl, ?_, ?_⟩
  · apply List.mem_append_right
    rw [if_pos h3]
    simp only [encrypt_archives]
    exact List.mem_append_left _ (by simp)
  · intro m hmem
    rcases List.mem_append.mp hmem with hmem1 | hmem2
    · exact create_archives_no_stderr env _ raw.ignored raw.output_dir m hmem1
    · rw [if_pos h3] at hmem2
      simp [encrypt_archives] at hmem2

/-- Witness for the amended C3 at a concrete input where gpg exits 1. -/
theorem c3_amended_gpg_exit_ignored_witness :
    exitCode (main envE rawE).2 = 0 ∧
    Effect.gpgEncrypt
        (gpgArgs rawE.keys ((create_archives envE (rawE.project.map (resolveProject envE))
          rawE.ignored rawE.output_dir).2.map (fun s => s.output)))
        ((create_archives envE (rawE.project.map (resolveProject envE))
          rawE.ignored rawE.output_dir).2.map (fun s => s.output)) envE.gpgExit
      ∈ (main envE rawE).1 ∧
    ∀ m, Effect.stderrMsg m ∉ (main envE rawE).1 :=
  c3_amended_gpg_exit_ignored envE rawE (by decide) (by decide) (by decide) (by decide)

/-- Counterexample to claim C7 as stated: two distinct valid input projects
(two working copies of one repository, distinct absolute paths) share base
name and version label; the run succeeds without encryption, yet a single
archive file remains in the output directory for the two input projects,
the second move having overwritten the first. -/
theorem c7_counterexample :
    (main envE rawDup).2 = Except.ok () ∧
    rawDup.project.length = 2 ∧
    (runWorld { files := [], dirs := [envE.mkdtemp] } (main envE rawDup).1).files
      = [("./p.abcdef12.7z")] ∧
    (runWorld { files := [], dirs := [envE.mkdtemp] } (main envE rawDup).1).files.length
      = 1 :=
  ⟨rfl, rfl, by decide, by decide⟩

/-- Amended C7: each staged tree is removed right after its archive is
built, whatever the archiver exit status; after a successful run without
encryption the temporary directories are all gone and one archive move per
input project was performed, so when the output names are pairwise distinct
(and the temporary directory does not coincide with a staging path or hold
an output) the output directory holds exactly one archive per input
project; projects sharing base name and version label overwrite each other
and leave fewer files. -/
theorem c7_amended_cleanup_and_outputs (env : Env) (raw : RawArgs)
    (staged : List StagedProject)
    (hstaged : staged = (create_archives env (raw.project.map (resolveProject env))
      raw.ignored raw.output_dir).2)
    (h1 : ∀ q ∈ raw.project, env.isdir q = true)
    (h2 : ∀ p ∈ raw.project.map (resolveProject env),
      env.isdir (pathJoin p.abs (".git")) = true)
    (h3 : raw.encrypt = false)
    (htmp : ∀ p ∈ raw.project.map (resolveProject env),
      ¬ pathJoin env.mkdtemp p.base = env.mkdtemp)
    (harch : ∀ s ∈ staged, ∀ t ∈ staged, ¬ s.archive = t.output)
    (hnodup : (staged.map (fun s => s.output)).Nodup) :
    (main env raw).2 = Except.ok () ∧
    (∀ s ∈ staged,
      List.Sublist [Effect.sevenZip s.archive s.tmpdir (env.sevenZipExit s.archive),
        Effect.rmtree s.tmpdir] (main env raw).1) ∧
    (runWorld { files := [], dirs := [env.mkdtemp] } (main env raw).1).dirs = [] ∧
    (runWorld { files := [], dirs := [env.mkdtemp] } (main env raw).1).files
      = staged.map (fun s => s.output) ∧
    staged.length = raw.project.length := by
  subst hstaged
  have henc2 : raw.encrypt = true → raw.keys ≠ [] := fun he => absurd he (by simp [h3])
  have hm := main_ok env raw h1 henc2 h2
  rw [hm]
  rw [if_neg (show ¬ raw.encrypt = true by simp [h3])]
  rw [List.append_nil]
  have hsnd := create_archives_snd env (raw.project.map (resolveProject env))
    raw.ignored raw.output_dir
  have harchs : ∀ p ∈ raw.project.map (resolveProject env),
      ∀ q ∈ raw.project.map (resolveProject env),
      ¬ (archiveProject env env.mkdtemp raw.ignored raw.output_dir p).2.archive
        = (archiveProject env env.mkdtemp raw.ignored raw.output_dir q).2.output := by
    intro p hp q hq
    exact harch _ (by rw [hsnd]; exact List.mem_map_of_mem _ hp)
      _ (by rw [hsnd]; exact List.mem_map_of_mem _ hq)
  have hworld := create_world env raw.ignored raw.output_dir
    (raw.project.map (resolveProject env)) [] htmp
    (fun p hp => List.not_mem_nil _) harchs
  have houts : (raw.project.map (resolveProject env)).map
      (fun p => (archiveProject env env.mkdtemp raw.ignored raw.output_dir p).2.output)
    = ((create_archives env (raw.project.map (resolveProject env))
        raw.ignored raw.output_dir).2).map (fun s => s.output) := by
    rw [hsnd]
    simp only [List.map_map]
    rfl
  refine ⟨rfl, ?_, ?_, ?_, ?_⟩
  · intro s hs
    rw [hsnd] at hs
    rcases List.mem_map.mp hs with ⟨p, hp, hsp⟩
    subst hsp
    have htd : (archiveProject env env.mkdtemp raw.ignored raw.output_dir p).2.tmpdir
        = pathJoin env.mkdtemp p.base := rfl
    rw [create_archives_fst]
    refine List.Sublist.trans ?_ (List.sublist_append_left _ _)
    refine List.Sublist.trans ?_ (List.sublist_flatten_of_mem (List.mem_map_of_mem _ hp))
    rw [htd]
    exact block_pair_sublist env env.mkdtemp raw.ignored raw.output_dir p
  · rw [create_archives_fst, runWorld_append, hworld]
    simp [runWorld, stepWorld, removePath]
  · rw [create_archives_fst, runWorld_append, hworld, houts]
    rw [foldl_addFile_of_nodup _ [] hnodup (fun x hx => List.not_mem_nil _)]
    simp [runWorld, stepWorld]
  · rw [hsnd]
    simp

/-- The staged records for the two-project run in the healthy environment. -/
def stagedW2 : List StagedProject :=
  (create_archives envW (rawW2.project.map (resolveProject envW))
    rawW2.ignored rawW2.output_dir).2

/-- Witness for the amended C7: two distinct projects p and q, distinct
output names; both temporary trees are removed, the run temporary directory
is removed, and exactly the two archives remain. -/
theorem c7_amended_cleanup_and_outputs_witness :
    (main envW rawW2).2 = Except.ok () ∧
    (∀ s ∈ stagedW2,
      List.Sublist [Effect.sevenZip s.archive s.tmpdir (envW.sevenZipExit s.archive),
        Effect.rmtree s.tmpdir] (main envW rawW2).1) ∧
    (runWorld { files := [], dirs := [envW.mkdtemp] } (main envW rawW2).1).dirs = [] ∧
    (runWorld { files := [], dirs := [envW.mkdtemp] } (main envW rawW2).1).files
      = stagedW2.map (fun s => s.output) ∧
    stagedW2.length = rawW2.project.length :=
  c7_amended_cleanup_and_outputs envW rawW2 stagedW2 rfl (by decide) (by decide) rfl
    (by decide) (by decide) (by decide)

def p9a : ProjectInfo := resolveProject envC9 ("a/p")

def p9b : ProjectInfo := resolveProject envC9 ("b/p")

def s9a : StagedProject := (archiveProject envC9 "/tmp/t0" false ("./") p9a).2

def s9b : StagedProject := (archiveProject envC9 "/tmp/t0" false ("./") p9b).2

/-- Counterexample to claim C9 as stated: two distinct supplied paths with
equal base names are indeed staged at the same temporary path, but their
archive names do not collide, because the version labels (revision
prefixes) differ; so the claimed name collision does not hold. -/
theorem c9_counterexample :
    (create_archives envC9 [p9a, p9b] false ("./")).2 = [s9a, s9b] ∧
    ¬ p9a.abs = p9b.abs ∧ p9a.base = p9b.base ∧
    s9a.tmpdir = s9b.tmpdir ∧
    ¬ s9a.archive = s9b.archive ∧ ¬ s9a.output = s9b.output :=
  ⟨by decide, by decide, by decide, by decide, by decide, by decide⟩

/-- Amended C9: two supplied projects with equal resolved base names are
staged at the same temporary path; their archive files collide exactly when
their version labels also coincide, in which case both moves target the
same output path (the later overwriting the earlier). -/
theorem c9_amended_staging_collision (env : Env) (ps : List ProjectInfo) (ign : Bool)
    (out : String) (p q : ProjectInfo) (hp : p ∈ ps) (hq : q ∈ ps)
    (hbase : p.base = q.base)
    (h1 : ¬ env.mkdtemp = "") (h2 : endsWithSlash env.mkdtemp = false)
    (hbp : ('/' : Char) ∉ p.base.data)
    (htp : ('/' : Char) ∉ (env.gitTag p.abs).data)
    (hrp : ('/' : Char) ∉ (env.gitRevision p.abs).data)
    (htq : ('/' : Char) ∉ (env.gitTag q.abs).data)
    (hrq : ('/' : Char) ∉ (env.gitRevision q.abs).data) :
    ∃ sp ∈ (create_archives env ps ign out).2,
      ∃ sq ∈ (create_archives env ps ign out).2,
      sp.rel = p.rel ∧ sq.rel = q.rel ∧
      sp.tmpdir = sq.tmpdir ∧
      (sp.output = sq.output ↔
        versionLabel (env.gitTag p.abs) (env.gitRevision p.abs)
          = versionLabel (env.gitTag q.abs) (env.gitRevision q.abs)) ∧
      Effect.move sp.archive sp.output ∈ (create_archives env ps ign out).1 ∧
      Effect.move sq.archive sq.output ∈ (create_archives env ps ign out).1 := by
  have hbq : ('/' : Char) ∉ q.base.data := hbase ▸ hbp
  have hnp := archive_name_no_slash p.base
    (versionLabel (env.gitTag p.abs) (env.gitRevision p.abs)) hbp
    (versionLabel_no_slash _ _ htp hrp)
  have hnq := archive_name_no_slash q.base
    (versionLabel (env.gitTag q.abs) (env.gitRevision q.abs)) hbq
    (versionLabel_no_slash _ _ htq hrq)
  have hop : (archiveProject env env.mkdtemp ign out p).2.output
      = pathJoin out (p.base ++ "." ++ versionLabel (env.gitTag p.abs)
          (env.gitRevision p.abs) ++ ".7z") := by
    show pathJoin out (basename (pathJoin env.mkdtemp _)) = _
    rw [basename_pathJoin env.mkdtemp _ h1 h2 hnp]
  have hoq : (archiveProject env env.mkdtemp ign out q).2.output
      = pathJoin out (q.base ++ "." ++ versionLabel (env.gitTag q.abs)
          (env.gitRevision q.abs) ++ ".7z") := by
    show pathJoin out (basename (pathJoin env.mkdtemp _)) = _
    rw [basename_pathJoin env.mkdtemp _ h1 h2 hnq]
  refine ⟨(archiveProject env env.mkdtemp ign out p).2, ?_,
    (archiveProject env env.mkdtemp ign out q).2, ?_, rfl, rfl, ?_, ?_, ?_, ?_⟩
  · rw [create_archives_snd]; exact List.mem_map_of_mem _ hp
  · rw [create_archives_snd]; exact List.mem_map_of_mem _ hq
  · show pathJoin env.mkdtemp p.base = pathJoin env.mkdtemp q.base
    rw [hbase]
  · rw [hop, hoq]
    constructor
    · intro heq
      have hn := pathJoin_right_inj (startsWithSlash_eq_false _ hnp)
        (startsWithSlash_eq_false _ hnq) heq
      rw [hbase] at hn
      exact name_inj hn
    · intro heq
      rw [hbase, heq]
  · exact block_sub_trace env ps ign out p hp _ (move_mem_block env env.mkdtemp ign out p)
  · exact block_sub_trace env ps ign out q hq _ (move_mem_block env env.mkdtemp ign out q)

/-- Witness for the amended C9: the two working copies of one repository
share the staging path /tmp/t0/p, and their outputs coincide exactly when
their version labels do (here they differ, so they do not collide). -/
theorem c9_amended_staging_collision_witness :
    ∃ sp ∈ (create_archives envC9 [p9a, p9b] false ("./")).2,
      ∃ sq ∈ (create_archives envC9 [p9a, p9b] false ("./")).2,
      sp.rel = p9a.rel ∧ sq.rel = p9b.rel ∧
      sp.tmpdir = sq.tmpdir ∧
      (sp.output = sq.output ↔
        versionLabel (envC9.gitTag p9a.abs) (envC9.gitRevision p9a.abs)
          = versionLabel (envC9.gitTag p9b.abs) (envC9.gitRevision p9b.abs)) ∧
      Effect.move sp.archive sp.output ∈ (create_archives envC9 [p9a, p9b] false ("./")).1 ∧
      Effect.move sq.archive sq.output ∈ (create_archives envC9 [p9a, p9b] false ("./")).1 :=
  c9_amended_staging_collision envC9 [p9a, p9b] false ("./") p9a p9b
    (by decide) (by decide) (by decide) (by decide) (by decide) (by decide)
    (by decide) (by decide) (by decide) (by decide)

lemma validate_projects_ok_effects (env : Env) :
    ∀ (ps : List ProjectInfo) (es : List Effect) (u : Unit),
      validate_projects env ps = (es, Except.ok u) → es = [] := by
  intro ps
  induction ps with
  | nil =>
    intro es u h
    simp [validate_projects] at h
    exact h
  | cons p rest ih =>
    intro es u h
    by_cases hp : env.isdir (pathJoin p.abs (".git")) = true
    · simp only [validate_projects, hp, if_true] at h
      exact ih es u h
    · simp only [validate_projects, hp, if_false] at h
      simp at h

lemma parse_arguments_ok_shape (env : Env) (raw : RawArgs) (es : List Effect)
    (args : Arguments) (h : parse_arguments env raw = (es, Except.ok args)) :
    es = [] ∧ args.encrypt = raw.encrypt ∧ args.keys = raw.keys ∧
      args.keep = raw.keep ∧ args.output_dir = raw.output_dir ∧
      args.ignored = raw.ignored := by
  rcases hr : resolveProjects env raw.project with ⟨es2, r2⟩
  cases r2 with
  | error c2 =>
    rw [parse_arguments_res_err env raw es2 c2 hr] at h
    simp at h
  | ok ps =>
    have hes2 := resolveProjects_ok_effects env raw.project es2 ps hr
    subst hes2
    rw [parse_arguments_eval env raw [] ps hr] at h
    by_cases hcond : raw.encrypt = true ∧ raw.keys.length < 1
    · rw [if_pos hcond] at h
      simp at h
    · rw [if_neg hcond] at h
      simp at h
      obtain ⟨hes, hargs⟩ := h
      subst hargs
      exact ⟨hes, rfl, rfl, rfl, rfl, rfl⟩

lemma main_eval_ok (env : Env) (raw : RawArgs) (args : Arguments)
    (hp : parse_arguments env raw = ([], Except.ok args))
    (hv : validate_projects env args.project = ([], Except.ok ())) :
    main env raw =
      ((create_archives env args.project args.ignored args.output_dir).1 ++
        (if args.encrypt = true then
          encrypt_archives env
            (create_archives env args.project args.ignored args.output_dir).2
            args.keep args.keys
        else []), Except.ok ()) := by
  unfold main
  rw [hp]
  simp [hv]

lemma block_write_targets (env : Env) (tmpd : String) (ign : Bool) (out : String)
    (p : ProjectInfo) (e : Effect) (he : e ∈ (archiveProject env tmpd ign out p).1) :
    ∀ t ∈ writeTargets e, (∃ n, t = pathJoin tmpd n) ∨ (∃ n, t = pathJoin out n) := by
  intro t ht
  simp only [archiveProject] at he
  rcases List.mem_append.mp he with hs | hrest
  · cases ign with
    | false =>
      simp at hs
      subst hs
      simp only [writeTargets, List.mem_singleton] at ht
      subst ht
      exact Or.inl ⟨p.base, rfl⟩
    | true =>
      simp at hs
      subst hs
      simp only [writeTargets, List.mem_singleton] at ht
      subst ht
      exact Or.inl ⟨p.base, rfl⟩
  · simp at hrest
    rcases hrest with h | h | h | h | h
    · subst h; simp [writeTargets] at ht
    · subst h; simp [writeTargets] at ht
    · subst h
      simp only [writeTargets, List.mem_singleton] at ht
      subst ht
      exact Or.inl ⟨_, rfl⟩
    · subst h
      simp only [writeTargets, List.mem_singleton] at ht
      subst ht
      exact Or.inl ⟨p.base, rfl⟩
    · subst h
      simp only [writeTargets] at ht
      simp at ht
      rcases ht with h2 | h2
      · subst h2
        exact Or.inl ⟨_, rfl⟩
      · subst h2
        exact Or.inr ⟨_, rfl⟩

lemma create_write_targets (env : Env) (ps : List ProjectInfo) (ign : Bool)
    (out : String) (e : Effect) (he : e ∈ (create_archives env ps ign out).1) :
    ∀ t ∈ writeTargets e,
      t = env.mkdtemp ∨ (∃ n, t = pathJoin env.mkdtemp n) ∨
        (∃ n, t = pathJoin out n) := by
  rw [create_archives_fst] at he
  rcases List.mem_append.mp he with h1 | h2
  · rcases List.mem_flatten.mp h1 with ⟨blk, hblk, hin⟩
    rcases List.mem_map.mp hblk with ⟨q, hq, hbq⟩
    subst hbq
    intro t ht
    rcases block_write_targets env env.mkdtemp ign out q e hin t ht with h | h
    · exact Or.inr (Or.inl h)
    · exact Or.inr (Or.inr h)
  · simp at h2
    subst h2
    intro t ht
    simp only [writeTargets, List.mem_singleton] at ht
    subst ht
    exact Or.inl rfl

lemma encrypt_write_targets (env : Env) (staged : List StagedProject) (keep : Bool)
    (recips : List String) (out : String)
    (houts : ∀ s ∈ staged, ∃ n, s.output = pathJoin out n)
    (e : Effect) (he : e ∈ encrypt_archives env staged keep recips) :
    ∀ t ∈ writeTargets e,
      (∃ n, t = pathJoin out n) ∨ (∃ n, t = pathJoin out n ++ (".gpg")) := by
  simp only [encrypt_archives] at he
  rcases List.mem_append.mp he with h1 | h2
  · simp at h1
    subst h1
    intro t ht
    simp only [writeTargets] at ht
    rcases List.mem_map.mp ht with ⟨f, hf, hft⟩
    rcases List.mem_map.mp hf with ⟨s, hsf, hsf2⟩
    rcases houts s hsf with ⟨n, hn⟩
    right
    exact ⟨n, by rw [← hft, ← hsf2, hn]⟩
  · by_cases hk : keep = true
    · rw [if_pos hk] at h2; simp at h2
    · rw [if_neg hk] at h2
      rcases List.mem_map.mp h2 with ⟨f, hf, hfe⟩
      rcases List.mem_map.mp hf with ⟨s, hsf, hsf2⟩
      subst hfe
      intro t ht
      simp only [writeTargets, List.mem_singleton] at ht
      subst ht
      rcases houts s hsf with ⟨n, hn⟩
      exact Or.inl ⟨n, by rw [← hsf2, hn]⟩

/-- Counterexample to claim C10 as stated: when the output directory names
a project directory itself, the final move writes the archive to a path
that resolves under the supplied project's resolved absolute path, so the
run does modify the tree below a project path. -/
theorem c10_counterexample :
    ("p/p.abcdef12.7z") ∈ writeTargets
      (Effect.move ("/tmp/t0/p.abcdef12.7z") ("p/p.abcdef12.7z")) ∧
    Effect.move ("/tmp/t0/p.abcdef12.7z") ("p/p.abcdef12.7z") ∈ (main envE rawA).1 ∧
    isUnder (envE.abspath ("p/p.abcdef12.7z")) (resolveProject envE ("p")).abs = true ∧
    (resolveProject envE ("p")).rel ∈ rawA.project :=
  ⟨by decide, by decide, by decide, by decide⟩

/-- Amended C10: every path the run writes to, creates, or removes is the
per-run temporary directory, a path joined beneath it, a path joined
beneath the output directory, or such a path with the gpg encryption
suffix; staging sources and the git query working directories are only
read.  Writes therefore land under a supplied project's path only when
the output (or temporary) directory itself resolves inside that project. -/
theorem c10_amended_write_targets (env : Env) (raw : RawArgs) :
    ∀ e ∈ (main env raw).1, ∀ t ∈ writeTargets e,
      t = env.mkdtemp ∨ (∃ n, t = pathJoin env.mkdtemp n) ∨
      (∃ n, t = pathJoin raw.output_dir n) ∨
      (∃ n, t = pathJoin raw.output_dir n ++ (".gpg")) := by
  intro e he t ht
  rcases hpa : parse_arguments env raw with ⟨es, r⟩
  cases r with
  | error c =>
    rw [main_parse_err env raw es c hpa] at he
    rcases (parse_arguments_err_shape env raw es c hpa).2 with ⟨m, hm⟩
    subst hm
    simp at he
    rcases he with h | h <;> subst h <;> simp [writeTargets] at ht
  | ok args =>
    obtain ⟨hes, henc, hkeys, hkeep, hout, hign⟩ :=
      parse_arguments_ok_shape env raw es args hpa
    subst hes
    rcases hva : validate_projects env args.project with ⟨es2, r2⟩
    cases r2 with
    | error c2 =>
      rw [main_validate_err env raw args es2 c2 hpa hva] at he
      rcases (validate_projects_err_shape env args.project es2 c2 hva).2 with ⟨m, hm⟩
      subst hm
      simp at he
      subst he
      simp [writeTargets] at ht
    | ok u =>
      have hes2 := validate_projects_ok_effects env args.project es2 u hva
      subst hes2
      rw [main_eval_ok env raw args hpa (by cases u; exact hva)] at he
      rcases List.mem_append.mp he with h1 | h2
      · rcases create_write_targets env args.project args.ignored args.output_dir
          e h1 t ht with h | h | h
        · exact Or.inl h
        · exact Or.inr (Or.inl h)
        · rw [hout] at h
          exact Or.inr (Or.inr (Or.inl h))
      · by_cases he2 : args.encrypt = true
        · rw [if_pos he2] at h2
          have houts : ∀ s ∈ (create_archives env args.project
              args.ignored args.output_dir).2,
              ∃ n, s.output = pathJoin args.output_dir n := by
            intro s hs
            rw [create_archives_snd] at hs
            rcases List.mem_map.mp hs with ⟨q, hq, hqs⟩
            subst hqs
            exact ⟨basename (pathJoin env.mkdtemp (q.base ++ "." ++
              versionLabel (env.gitTag q.abs) (env.gitRevision q.abs) ++ ".7z")), rfl⟩
          rcases encrypt_write_targets env _ args.keep args.keys args.output_dir
            houts e h2 t ht with h | h
          · rw [hout] at h
            exact Or.inr (Or.inr (Or.inl h))
          · rw [hout] at h
            exact Or.inr (Or.inr (Or.inr h))
        · rw [if_neg he2] at h2
          simp at h2

/-- Witness for the amended C10 at a concrete run: the move destination is
a path joined beneath the output directory. -/
theorem c10_amended_write_targets_witness :
    Effect.move ("/tmp/t0/p.abcdef12.7z") ("p/p.abcdef12.7z") ∈ (main envE rawA).1 ∧
    (("p/p.abcdef12.7z") = envE.mkdtemp ∨
      (∃ n, ("p/p.abcdef12.7z") = pathJoin envE.mkdtemp n) ∨
      (∃ n, ("p/p.abcdef12.7z") = pathJoin rawA.output_dir n) ∨
      (∃ n, ("p/p.abcdef12.7z") = pathJoin rawA.output_dir n ++ (".gpg"))) :=
  ⟨by decide,
    c10_amended_write_targets envE rawA
      (Effect.move ("/tmp/t0/p.abcdef12.7z") ("p/p.abcdef12.7z")) (by decide)
      ("p/p.abcdef12.7z") (by decide)⟩

end GitBackup
